import Mathlib

set_option maxRecDepth 4000

namespace FractalMemory

/-!
Verification model of `src/fractal_memory_advanced.py`.

Python text is modelled as `List Char`, character offsets as `Nat`, and
Python floats as `ℚ` (all float arithmetic in the source is on small
decimal constants and counters, where rational arithmetic agrees with the
intended real arithmetic).  External collaborators — the spaCy NER model,
the sentence-transformer encoder and the FAISS index — are passed in as
function parameters, mirroring the spec's external-interface section.
-/

/-- Python regex `\s` on the inputs considered here (ASCII whitespace). -/
def pyIsSpace (c : Char) : Bool :=
  (c == ' ') || (c == '\t') || (c == '\n') || (c == '\r') || (c == '\x0b') || (c == '\x0c')

/-- Python regex word character `\w` restricted to ASCII: `[A-Za-z0-9_]`. -/
def isWordChar (c : Char) : Bool :=
  decide (('a' ≤ c ∧ c ≤ 'z') ∨ ('A' ≤ c ∧ c ≤ 'Z') ∨ ('0' ≤ c ∧ c ≤ '9') ∨ c = '_')

/-- Python regex `\d` (ASCII digit). -/
def isAsciiDigit (c : Char) : Bool :=
  decide ('0' ≤ c ∧ c ≤ '9')

/-- ASCII lowercasing of one character (`str.lower` restricted to ASCII). -/
def asciiLowerChar (c : Char) : Char :=
  if 'A' ≤ c ∧ c ≤ 'Z' then Char.ofNat (c.toNat + 32) else c

/-- ASCII lowercasing of a string (`str.lower` restricted to ASCII). -/
def asciiLower (s : String) : String :=
  ⟨s.data.map asciiLowerChar⟩

/-- Python slice `text[a:b]` (for `a ≤ b`). -/
def pySlice (text : List Char) (a b : Nat) : List Char :=
  (text.take b).drop a

/-- Length of the longest prefix whose characters all satisfy `p`. -/
def countLeading (p : Char → Bool) : List Char → Nat
  | [] => 0
  | c :: cs => if p c then countLeading p cs + 1 else 0

/-- `re.finditer` start offsets: scan left to right; at each position try the
matcher `m` (which returns the length of a match anchored there); on a match
record its start offset and resume right after the matched text.  `fuel` is
initialised to the text length; every step consumes at least one character,
so the fuel never runs out on the initial call. -/
def finditerAux (m : List Char → Option Nat) : Nat → List Char → Nat → List Nat
  | 0, _, _ => []
  | _ + 1, [], _ => []
  | fuel + 1, c :: cs, pos =>
    match m (c :: cs) with
    | some len => pos :: finditerAux m fuel (List.drop (len - 1) cs) (pos + len)
    | none => finditerAux m fuel cs (pos + 1)

/-- All match start offsets of `m` in `text`, `re.finditer` style. -/
def finditerStarts (m : List Char → Option Nat) (text : List Char) : List Nat :=
  finditerAux m text.length text 0

/-- Anchored matcher for a literal pattern. -/
def litMatch (pat : List Char) (cs : List Char) : Option Nat :=
  if pat.isPrefixOf cs then some pat.length else none

/-- Pattern `\n\n\*\*\*\n\n` (asterisk scene breaks). -/
def matchAsteriskBreak : List Char → Option Nat :=
  litMatch "\n\n***\n\n".toList

/-- Pattern `\n\n---\n\n` (dash scene breaks). -/
def matchDashBreak : List Char → Option Nat :=
  litMatch "\n\n---\n\n".toList

/-- Backtracking search for the greedy `\s{3,}` part of the blank-line
pattern: the largest `k` with `3 ≤ k ≤` the bound such that the text after
the `k` whitespace characters starts with `"\n\n"`. -/
def blankRunK (rest : List Char) : Nat → Option Nat
  | 0 => none
  | k + 1 =>
    if 3 ≤ k + 1 ∧ "\n\n".toList.isPrefixOf (rest.drop (k + 1)) then some (k + 1)
    else blankRunK rest k

/-- Pattern `\n\n\s{3,}\n\n` (runs of blank lines), with the greedy
backtracking semantics of `re`. -/
def matchBlankRun (cs : List Char) : Option Nat :=
  if "\n\n".toList.isPrefixOf cs then
    let rest := cs.drop 2
    match blankRunK rest (countLeading pyIsSpace rest) with
    | some k => some (2 + k + 2)
    | none => none
  else none

/-- Pattern `\n\nChapter \d+` (chapter markers). -/
def matchChapterMark (cs : List Char) : Option Nat :=
  let pre := "\n\nChapter ".toList
  if pre.isPrefixOf cs then
    let d := countLeading isAsciiDigit (cs.drop pre.length)
    if d = 0 then none else some (pre.length + d)
  else none

/-- Pattern `\n\n\d+\.\n\n` (numbered sections). -/
def matchNumberedSection (cs : List Char) : Option Nat :=
  if "\n\n".toList.isPrefixOf cs then
    let d := countLeading isAsciiDigit (cs.drop 2)
    if d = 0 then none
    else if ".\n\n".toList.isPrefixOf ((cs.drop 2).drop d) then some (2 + d + 3)
    else none
  else none

/-- Start offsets of all five explicit scene-marker patterns, in the order
the source iterates the pattern list. -/
def sceneBreakPatternStarts (text : List Char) : List Nat :=
  finditerStarts matchAsteriskBreak text ++
  finditerStarts matchDashBreak text ++
  finditerStarts matchBlankRun text ++
  finditerStarts matchChapterMark text ++
  finditerStarts matchNumberedSection text

/-- One named entity produced by the NER collaborator (spaCy), with its
label, surface text and start character offset. -/
structure SpacyEnt where
  label : String
  text : String
  start_char : Nat
deriving DecidableEq, Repr

/-- The NER collaborator: chapter text to entity list (models `nlp`). -/
abbrev NerFun := List Char → List SpacyEnt

/-- Location-change break offsets: walking the entity list, a `LOC`/`GPE`
entity whose text differs from the previous remembered location (Python
truthiness: `None` and `""` both fail the `if last_location` test) emits a
break at its start offset; the remembered location is updated on every
`LOC`/`GPE` entity. -/
def locationBreaks : List SpacyEnt → Option String → List Nat
  | [], _ => []
  | e :: es, lastLoc =>
    if e.label = "LOC" ∨ e.label = "GPE" then
      match lastLoc with
      | some s =>
        if s ≠ "" ∧ e.text ≠ s then e.start_char :: locationBreaks es (some e.text)
        else locationBreaks es (some e.text)
      | none => locationBreaks es (some e.text)
    else locationBreaks es lastLoc

/-- `detect_scene_breaks`: offset 0, plus all explicit marker matches, plus
NER location-change breaks over a 5000-character prefix sample; returned as
`sorted(set(breaks))`. -/
def detectSceneBreaks (ner : NerFun) (text : List Char) : List Nat :=
  let sample := if text.length > 5000 then text.take 5000 else text
  let breaks := 0 :: sceneBreakPatternStarts text ++ locationBreaks (ner sample) none
  List.insertionSort (· ≤ ·) breaks.dedup

/-- The action-verb lexicon of `classify_scene_type`
(`\b(ran|jumped|fought|grabbed|threw|moved|walked)\b`, case-insensitive). -/
def actionWordsLex : List (List Char) :=
  ["ran", "jumped", "fought", "grabbed", "threw", "moved", "walked"].map String.toList

/-- Case-insensitive anchored match of one lexicon word followed by a
non-word character (the trailing `\b`); the leading `\b` is checked by the
caller. -/
def matchWordAt : List Char → List Char → Bool
  | [], [] => true
  | [], c :: _ => !(isWordChar c)
  | _ :: _, [] => false
  | w :: ws, c :: cs => (asciiLowerChar c == w) && matchWordAt ws cs

/-- Try the alternation's words in order at the current position. -/
def tryWords (ws : List (List Char)) (cs : List Char) : Option Nat :=
  match ws with
  | [] => none
  | w :: rest => if matchWordAt w cs then some w.length else tryWords rest cs

/-- Count of case-insensitive whole-word matches of an alternation lexicon,
`re.finditer` style.  `prevW` records whether the preceding character is a
word character (the leading `\b`).  `fuel` is initialised to the text
length, which suffices since every step consumes at least one character. -/
def wordScanAux (ws : List (List Char)) : Nat → Bool → List Char → Nat
  | 0, _, _ => 0
  | _ + 1, _, [] => 0
  | fuel + 1, prevW, c :: cs =>
    match (if prevW then none else tryWords ws (c :: cs)) with
    | some len => 1 + wordScanAux ws fuel true (List.drop (len - 1) cs)
    | none => wordScanAux ws fuel (isWordChar c) cs

/-- Number of `\b(w1|w2|…)\b` matches (case-insensitive) in `text`. -/
def countWordMatches (ws : List (List Char)) (text : List Char) : Nat :=
  wordScanAux ws text.length false text

/-- `re.search` existence for a `\b(w1|w2|…)\b` pattern (case-insensitive). -/
def hasWordMatch (ws : List (List Char)) (text : List Char) : Bool :=
  decide (0 < countWordMatches ws text)

/-- Count of quote-mark characters, i.e. matches of the class `["\'"]`. -/
def quoteCharCount (text : List Char) : Nat :=
  text.countP (fun c => (c == '"') || (c == '\''))

/-- `dialogue_ratio`: quote-mark count over `max(len(text), 1)`. -/
def dialogueRatio (text : List Char) : ℚ :=
  (quoteCharCount text : ℚ) / ((max text.length 1 : Nat) : ℚ)

/-- `action_words`: hits of the action-verb lexicon. -/
def actionWordCount (text : List Char) : Nat :=
  countWordMatches actionWordsLex text

/-- `classify_scene_type`. -/
def classifySceneType (text : List Char) : String :=
  if dialogueRatio text > (0.05 : ℚ) then "dialogue"
  else if actionWordCount text > 5 then "action"
  else if text.length < 500 then "transition"
  else "description"

/-- `MicroSegment` dataclass (produced upstream, consumed unchanged). -/
structure MicroSegment where
  id : String
  chapter : String
  sent_index : Nat
  beat_index : Nat
  text : List Char
  start_char : Nat
  end_char : Nat
  embedding_id : Option Nat := none
deriving DecidableEq, Repr

/-- `MesoSegment` dataclass. -/
structure MesoSegment where
  id : String
  chapter : String
  start_char : Nat
  end_char : Nat
  text : List Char
  micro_ids : List String
  scene_type : Option String := none
  embedding_id : Option Nat := none
deriving DecidableEq, Repr

/-- `MultiScaleSegmenter` construction parameters (source defaults
`meso_window=(200, 800)`, `overlap=50`). -/
structure SegmenterConfig where
  meso_window : Nat × Nat := (200, 800)
  overlap : Nat := 50
deriving DecidableEq, Repr

/-- Python `str.split()` (split on whitespace runs, dropping empties). -/
def pySplitAux : List Char → List Char → List (List Char)
  | [], acc => if acc.isEmpty then [] else [acc.reverse]
  | c :: cs, acc =>
    if pyIsSpace c then
      if acc.isEmpty then pySplitAux cs [] else acc.reverse :: pySplitAux cs []
    else pySplitAux cs (c :: acc)

/-- Python `str.split()`. -/
def pySplit (text : List Char) : List (List Char) :=
  pySplitAux text []

/-- Python `' '.join(words)`. -/
def joinSpace (ws : List (List Char)) : List Char :=
  List.intercalate [' '] ws

/-- Python `range(0, n, step)` for `step > 0` (empty for `step = 0`, which
the source never does: its step is `800 - 50`). -/
def rangeStep (n step : Nat) : List Nat :=
  if step = 0 then [] else (List.range ((n + step - 1) / step)).map (· * step)

/-- `create_sliding_windows`: fallback meso segmentation over
whitespace-tokenized text, with char offsets approximated by re-joining
token slices. -/
def createSlidingWindows (cfg : SegmenterConfig) (text : List Char) (chapter : String)
    (micros : List MicroSegment) : List MesoSegment :=
  let words := pySplit text
  let windowSize := cfg.meso_window.2
  let step := windowSize - cfg.overlap
  ((rangeStep words.length step).enum).filterMap (fun p =>
    let i := p.1
    let startIdx := p.2
    let endIdx := min (startIdx + windowSize) words.length
    let windowText := joinSpace ((words.take endIdx).drop startIdx)
    let startChar := if startIdx > 0 then (joinSpace (words.take startIdx)).length else 0
    let endChar := (joinSpace (words.take endIdx)).length
    let microIds := (micros.filter (fun m =>
      decide (m.start_char ≥ startChar) && decide (m.end_char ≤ endChar))).map (fun m => m.id)
    if microIds.isEmpty then none
    else some { id := "meso_" ++ chapter ++ "_w" ++ toString i
                chapter := chapter
                start_char := startChar
                end_char := endChar
                text := windowText
                micro_ids := microIds
                scene_type := some (classifySceneType windowText)
                embedding_id := none })

/-- `create_meso_segments`: with more than one detected break, one window
per consecutive break pair `[break_i, break_{i+1})` (the loop runs
`i = 0 … len(breaks) - 2`, so the `else len(text)` bound is dead code and no
window past the last break is ever built); a window is kept only if some
micro segment is fully contained in it.  Otherwise fall back to sliding
windows. -/
def createMesoSegments (cfg : SegmenterConfig) (ner : NerFun) (text : List Char)
    (chapter : String) (micros : List MicroSegment) : List MesoSegment :=
  let breaks := detectSceneBreaks ner text
  if breaks.length > 1 then
    (List.range (breaks.length - 1)).filterMap (fun i =>
      let start := breaks.getD i 0
      let stop := if i + 1 < breaks.length then breaks.getD (i + 1) 0 else text.length
      let microIds := (micros.filter (fun m =>
        decide (m.start_char ≥ start) && decide (m.end_char ≤ stop))).map (fun m => m.id)
      if microIds.isEmpty then none
      else some { id := "meso_" ++ chapter ++ "_" ++ toString i
                  chapter := chapter
                  start_char := start
                  end_char := stop
                  text := pySlice text start stop
                  micro_ids := microIds
                  scene_type := some (classifySceneType (pySlice text start stop))
                  embedding_id := none })
  else createSlidingWindows cfg text chapter micros

/-! ### Narrative graph store (`NarrativeGraphManager`) -/

/-- A row of the `nodes` table (primary key `node_id`).  The JSON
`attributes` column is modelled decoded, as a string-to-string map (every
attribute value the source writes is a string); `NULL` is `none`. -/
structure NodeRow where
  node_id : String
  node_type : String
  canonical_name : String
  attributes : Option (List (String × String))
  frequency : Nat
  centrality : Option ℚ
deriving DecidableEq, Repr

/-- A row of the `edges` table (primary key `edge_id`). -/
structure EdgeRow where
  edge_id : String
  from_node : String
  to_node : String
  edge_type : String
  weight : ℚ
  evidence : Option (List (String × String))
deriving DecidableEq, Repr

/-- A row of the `segment_nodes` table (composite primary key
`(segment_id, node_id)`). -/
structure SegNodeRow where
  segment_id : String
  node_id : String
  segment_scale : String
  confidence : ℚ
deriving DecidableEq, Repr

/-- The three tables of the narrative graph database. -/
structure GraphDB where
  nodes : List NodeRow
  edges : List EdgeRow
  segment_nodes : List SegNodeRow
deriving DecidableEq, Repr

/-- A freshly initialised database (`init_schema` creates empty tables). -/
def emptyDB : GraphDB := ⟨[], [], []⟩

/-- The built-in character alias table (`load_character_aliases`). -/
def characterAliases : List (String × String) :=
  [("tom", "Thomas"), ("tommy", "Thomas"), ("robert", "Robert"),
   ("bob", "Robert"), ("miranda", "Miranda")]

/-- `canonicalize(name, node_type)`: for characters, a lowercase lookup in
the alias table (`dict.get` with the name itself as default); all other
types pass through unchanged. -/
def canonicalize (name : String) (node_type : String) : String :=
  if node_type = "character" then (characterAliases.lookup (asciiLower name)).getD name
  else name

/-- The `GraphNode` dataclass as built by `extract_entities`. -/
structure GraphNode where
  node_id : String
  node_type : String
  canonical_name : String
  attributes : List (String × String)
  frequency : Nat := 1
  centrality : Option ℚ := none
deriving DecidableEq, Repr

/-- The node-id slug: `canonical.lower().replace(' ', '_')`. -/
def slug (canonical : String) : String :=
  ⟨(asciiLower canonical).data.map (fun c => if c = ' ' then '_' else c)⟩

/-- The motif lexicon (`motif_patterns`): motif name, the regex text stored
in the node's attributes, and the regex's word alternation, which drives the
case-insensitive whole-word search. -/
def motifPatterns : List (String × String × List (List Char)) :=
  [("frost", "\\b(frost|frozen|ice|icy|cold)\\b",
    ["frost", "frozen", "ice", "icy", "cold"].map String.toList),
   ("purple", "\\b(purple|violet|lavender|mauve)\\b",
    ["purple", "violet", "lavender", "mauve"].map String.toList),
   ("water", "\\b(water|rain|river|stream|ocean|sea)\\b",
    ["water", "rain", "river", "stream", "ocean", "sea"].map String.toList),
   ("darkness", "\\b(dark|darkness|shadow|night|black)\\b",
    ["dark", "darkness", "shadow", "night", "black"].map String.toList)]

/-- `extract_entities`: each NER entity labelled PERSON/LOC/ORG becomes a
character (PERSON) or setting node with id `{type}_{slug(canonical)}`; then
each motif whose pattern occurs in the text yields one motif node
(presence, not frequency). -/
def extractEntities (ner : NerFun) (text : List Char) : List GraphNode :=
  let nerNodes := (ner text).filterMap (fun e =>
    if e.label = "PERSON" ∨ e.label = "LOC" ∨ e.label = "ORG" then
      let nodeType := if e.label = "PERSON" then "character" else "setting"
      let canonical := canonicalize e.text nodeType
      some { node_id := nodeType ++ "_" ++ slug canonical
             node_type := nodeType
             canonical_name := canonical
             attributes := [("original_text", e.text), ("label", e.label)] }
    else none)
  let motifNodes := motifPatterns.filterMap (fun mp =>
    if hasWordMatch mp.2.2 text then
      some { node_id := "motif_" ++ mp.1
             node_type := "motif"
             canonical_name := mp.1
             attributes := [("pattern", mp.2.1)] }
    else none)
  nerNodes ++ motifNodes

/-- `INSERT … VALUES (…, 1) ON CONFLICT(node_id) DO UPDATE SET
frequency = frequency + 1`: bump the frequency of the row with this primary
key, else append a fresh row with frequency 1 and `NULL` centrality.
Only the frequency changes on conflict. -/
def upsertNode : List NodeRow → GraphNode → List NodeRow
  | [], e => [⟨e.node_id, e.node_type, e.canonical_name, some e.attributes, 1, none⟩]
  | r :: rs, e =>
    if r.node_id = e.node_id then { r with frequency := r.frequency + 1 } :: rs
    else r :: upsertNode rs e

/-- `INSERT OR IGNORE INTO segment_nodes` (first write wins; confidence
defaults to 1). -/
def insertSegLink (links : List SegNodeRow) (sid nid scale : String) : List SegNodeRow :=
  if links.any (fun l => l.segment_id == sid && l.node_id == nid) then links
  else links ++ [⟨sid, nid, scale, 1⟩]

/-- Co-occurrence edge id: `f"{a}_{b}_cooccur"` (plain string
concatenation of the two node ids in extraction order). -/
def cooccurEdgeId (a b : String) : String := a ++ "_" ++ b ++ "_cooccur"

/-- `INSERT … ON CONFLICT(edge_id) DO UPDATE SET weight = weight + 1.0`:
bump the weight of the row with this primary key (evidence is not
updated), else append a fresh weight-1 cooccurrence row. -/
def upsertEdge (eid a b : String) (ev : List (String × String)) :
    List EdgeRow → List EdgeRow
  | [] => [⟨eid, a, b, "cooccurrence", 1, some ev⟩]
  | r :: rs =>
    if r.edge_id = eid then { r with weight := r.weight + 1 } :: rs
    else r :: upsertEdge eid a b ev rs

/-- The ordered pairs `(node_ids[i], node_ids[j])` with `i < j`, in the
nested-loop order of the source. -/
def pairsOf : List String → List (String × String)
  | [] => []
  | x :: xs => xs.map (fun y => (x, y)) ++ pairsOf xs

/-- The co-occurrence pass of `update_graph`. -/
def addCooccurEdges (ids : List String) (ev : List (String × String))
    (edges : List EdgeRow) : List EdgeRow :=
  (pairsOf ids).foldl (fun es p => upsertEdge (cooccurEdgeId p.1 p.2) p.1 p.2 ev es) edges

/-- `update_centrality`: every node's centrality becomes the number of
edges touching it (undirected degree), recomputed in full. -/
def updateCentrality (db : GraphDB) : GraphDB :=
  { db with nodes := db.nodes.map (fun n =>
      { n with centrality := some ((db.edges.countP (fun e =>
          e.from_node == n.node_id || e.to_node == n.node_id) : Nat) : ℚ) }) }

/-- The segment fields read by `update_graph` and `index_segments`
(`segment.id`, `segment.text`, `segment.embedding_id`; the remaining
dataclass fields are not consulted by the modelled operations). -/
structure SegRec where
  id : String
  text : List Char
  embedding_id : Option Nat := none
deriving DecidableEq, Repr

/-- `update_graph`: extract entities, upsert every node and its segment
link, upsert one co-occurrence edge per ordered pair of extracted node ids,
then recompute centrality. -/
def updateGraph (ner : NerFun) (seg : SegRec) (scale : String) (db : GraphDB) : GraphDB :=
  let entities := extractEntities ner seg.text
  let db1 := entities.foldl (fun d e =>
    { d with nodes := upsertNode d.nodes e
             segment_nodes := insertSegLink d.segment_nodes seg.id e.node_id scale }) db
  let ids := entities.map (fun e => e.node_id)
  let db2 := { db1 with
    edges := addCooccurEdges ids [("segment", seg.id), ("scale", scale)] db1.edges }
  updateCentrality db2

/-- One row of `query_graph`'s `SELECT DISTINCT` join. -/
structure QGRow where
  segment_id : String
  segment_scale : String
  canonical_name : String
  node_type : String
deriving DecidableEq, Repr

/-- `query_graph`'s join: `segment_nodes` rows joined with `nodes` on
`node_id` where the canonical name is among the requested names, in
nested-loop order, with `DISTINCT` keeping first occurrences. -/
def queryGraphRows (db : GraphDB) (names : List String) : List QGRow :=
  (db.segment_nodes.flatMap (fun s =>
    db.nodes.filterMap (fun n =>
      if s.node_id = n.node_id ∧ n.canonical_name ∈ names then
        some ⟨s.segment_id, s.segment_scale, n.canonical_name, n.node_type⟩
      else none))).dedup

/-- One element of `query_graph`'s result: a segment id with its
`(node, type, scale)` entries. -/
structure QGSegment where
  segment_id : String
  nodes : List (String × String × String)
deriving DecidableEq, Repr

/-- `query_graph`: group the join rows by segment (first-encounter order)
and keep the segments whose node-name set contains every requested name. -/
def queryGraph (db : GraphDB) (names : List String) : List QGSegment :=
  let rows := queryGraphRows db names
  ((rows.map (fun r => r.segment_id)).dedup).filterMap (fun sid =>
    let entries := (rows.filter (fun r => r.segment_id == sid)).map
      (fun r => (r.canonical_name, r.node_type, r.segment_scale))
    if names.all (fun name => (entries.map (fun t => t.1)).contains name) then
      some ⟨sid, entries⟩
    else none)

/-- Code-point lexicographic order on character lists; on UTF-8 encoded
text this is exactly SQLite's binary collation (and Python's `str` order). -/
def lexLe : List Char → List Char → Bool
  | [], _ => true
  | _ :: _, [] => false
  | a :: as, b :: bs => if a = b then lexLe as bs else decide (a < b)

/-- SQLite `ORDER BY` on a `TEXT` column (binary collation). -/
def stringLe (a b : String) : Bool :=
  lexLe a.data b.data

/-- One row of the continuity query: segment id, scale and the decoded
attributes blob of the joined node row (`NULL` is `none`). -/
structure ContRow where
  segment_id : String
  segment_scale : String
  attributes : Option (List (String × String))
deriving DecidableEq, Repr

/-- The continuity query: join of `segment_nodes` with `nodes` restricted
to the character's canonical name and node type `character`, ordered by
`segment_id` (SQLite binary collation is code-point lexicographic order;
the order among rows with equal segment ids is unspecified). -/
def continuityRows (db : GraphDB) (character : String) : List ContRow :=
  List.insertionSort (fun a b => stringLe a.segment_id b.segment_id = true)
    (db.segment_nodes.flatMap (fun s =>
      db.nodes.filterMap (fun n =>
        if s.node_id = n.node_id ∧ n.canonical_name = character ∧ n.node_type = "character"
        then some ⟨s.segment_id, s.segment_scale, n.attributes⟩
        else none)))

/-- One continuity violation record. -/
structure Violation where
  vtype : String
  character : String
  segment : String
  details : String
deriving DecidableEq, Repr

/-- The scan loop of `find_continuity_violations`: decode each row's blob
(falsy column values decode to `{}`), compare with the previous decoded
blob (skipped while the previous blob is `None` or empty, by Python
truthiness), and flag a resurrection when the previous status is `dead` and
the current one is `alive`. -/
def violScan (character : String) :
    List ContRow → Option (List (String × String)) → List Violation
  | [], _ => []
  | r :: rs, prev =>
    let curr := r.attributes.getD []
    let here : List Violation :=
      match prev with
      | some p =>
        if p ≠ [] ∧ p.lookup "status" = some "dead" ∧ curr.lookup "status" = some "alive"
        then [⟨"resurrection", character, r.segment_id,
               "Character appears alive after being dead"⟩]
        else []
      | none => []
    here ++ violScan character rs (some curr)

/-- `find_continuity_violations`. -/
def findContinuityViolations (db : GraphDB) (character : String) : List Violation :=
  violScan character (continuityRows db character) none

/-! ### Multi-scale index and retrieval (`FractalRetriever`) -/

def MICRO_INDEX_PATH : String := "micro_faiss.index"

def MESO_INDEX_PATH : String := "meso_faiss.index"

def MACRO_INDEX_PATH : String := "macro_faiss.index"

/-- The scale-to-file mapping built inside `load_or_create_index` and
`index_segments`. -/
def indexPaths : List (String × String) :=
  [("micro", MICRO_INDEX_PATH), ("meso", MESO_INDEX_PATH), ("macro", MACRO_INDEX_PATH)]

/-- The on-disk state read by `load_or_create_index`: the persisted FAISS
index per file path (`none` when the file does not exist).  An index is
modelled by its vector list, over an abstract vector type `E`; its
`ntotal` is the list length. -/
abbrev IndexFS (E : Type) := String → Option (List E)

/-- In-memory state of a `FractalRetriever`: the `indices` dict, the
`metadata` dict and the narrative graph it manages. -/
structure RetrieverState (E : Type) where
  indices : List (String × List E)
  metadata : List (String × List SegRec)
  graph : GraphDB

/-- Python dict assignment `d[k] = v`: replace in place, else append. -/
def dictSet {α : Type} : List (String × α) → String → α → List (String × α)
  | [], k, v => [(k, v)]
  | (k', v') :: rest, k, v =>
    if k' = k then (k, v) :: rest else (k', v') :: dictSet rest k v

/-- `load_or_create_index`: read the persisted index if its file exists,
else a fresh empty index.  (An unknown scale raises `KeyError` in the
source; only the three known scales are ever passed.) -/
def loadOrCreateIndex {E : Type} (fs : IndexFS E) (scale : String) : List E :=
  match indexPaths.lookup scale with
  | some path => (fs path).getD []
  | none => []

/-- A freshly constructed `FractalRetriever`: empty `indices` dict, empty
`metadata` dict; the constructor also opens the graph database, whose
persisted contents `g` are arbitrary. -/
def freshRetriever {E : Type} (g : GraphDB) : RetrieverState E := ⟨[], [], g⟩

/-- A scale's `index.ntotal`. -/
def scaleNtotal {E : Type} (st : RetrieverState E) (scale : String) : Nat :=
  ((st.indices.lookup scale).getD []).length

/-- A scale's metadata-store length (`len(self.metadata.get(scale, []))`). -/
def scaleMetaLen {E : Type} (st : RetrieverState E) (scale : String) : Nat :=
  ((st.metadata.lookup scale).getD []).length

/-- The metadata-consistency contract: every scale's metadata length equals
its index vector count. -/
def metaIndexAligned {E : Type} (st : RetrieverState E) : Prop :=
  ∀ scale, scaleNtotal st scale = scaleMetaLen st scale

/-- `index_segments` step 1 (`if scale not in self.indices: …`): ensure
the scale's index dict entry exists, loading the persisted file on first
touch. -/
def ensureIndexLoaded {E : Type} (fs : IndexFS E) (scale : String)
    (st : RetrieverState E) : RetrieverState E :=
  if (st.indices.lookup scale).isNone then
    { st with indices := dictSet st.indices scale (loadOrCreateIndex fs scale) }
  else st

/-- `index_segments` step 2 (`index.add(embeddings)`): append the encoded
vectors to the scale's index. -/
def appendVectors {E : Type} (scale : String) (embeddings : List E)
    (st : RetrieverState E) : RetrieverState E :=
  let newIndex := ((st.indices.lookup scale).getD []) ++ embeddings
  { st with indices := dictSet st.indices scale newIndex }

/-- `index_segments` step 3 (`if scale not in self.metadata: … = []`). -/
def ensureMetaKey {E : Type} (scale : String) (st : RetrieverState E) : RetrieverState E :=
  if (st.metadata.lookup scale).isNone then
    { st with metadata := dictSet st.metadata scale [] }
  else st

/-- `index_segments` step 4 (the `self.metadata[scale].append(asdict(seg))`
loop): append the segment records to the scale's metadata store. -/
def appendMeta {E : Type} (scale : String) (recs : List SegRec)
    (st : RetrieverState E) : RetrieverState E :=
  let newMeta := ((st.metadata.lookup scale).getD []) ++ recs
  { st with metadata := dictSet st.metadata scale newMeta }

/-- `index_segments` step 5 (`if scale == 'meso': … update_graph(seg, scale)`). -/
def updateGraphForMeso {E : Type} (ner : NerFun) (scale : String) (recs : List SegRec)
    (st : RetrieverState E) : RetrieverState E :=
  if scale = "meso" then
    { st with graph := recs.foldl (fun g s => updateGraph ner s scale g) st.graph }
  else st

/-- `index_segments`: ensure the scale's index is present (loading the
persisted file on first touch), batch-encode and L2-normalize the segment
texts, append the vectors starting at the current `ntotal`, assign the
resulting positions back onto the segments as embedding ids, append the
full records to the scale's metadata, persist index and metadata to disk
(which leaves the in-memory state unchanged), and, for the meso scale
only, update the narrative graph per segment.  `encode` and `normalize`
are the embedding collaborator. -/
def indexSegments {E : Type} (fs : IndexFS E) (encode : List Char → E)
    (normalize : E → E) (ner : NerFun) (st : RetrieverState E)
    (segs : List SegRec) (scale : String) : RetrieverState E :=
  let st1 := ensureIndexLoaded fs scale st
  let startId := ((st1.indices.lookup scale).getD []).length
  let embeddings := segs.map (fun s => normalize (encode s.text))
  let st2 := appendVectors scale embeddings st1
  let st3 := ensureMetaKey scale st2
  let newRecs := segs.enum.map (fun p => { p.2 with embedding_id := some (startId + p.1) })
  let st4 := appendMeta scale newRecs st3
  updateGraphForMeso ner scale newRecs st4

/-- A `scale_weights` dict: an insertion-ordered string-keyed map. -/
abbrev ScaleWeights := List (String × ℚ)

def lineFixWeights : ScaleWeights := [("micro", 0.9), ("meso", 0.1), ("macro", 0.0)]

def sceneFixWeights : ScaleWeights := [("micro", 0.2), ("meso", 0.7), ("macro", 0.1)]

def thematicWeights : ScaleWeights := [("micro", 0.1), ("meso", 0.3), ("macro", 0.6)]

def defaultScaleWeights : ScaleWeights := [("micro", 1.0), ("meso", 0.6), ("macro", 0.3)]

/-- The weight-resolution prologue of `fractal_retrieve`: a truthy policy
named `line-fix`/`scene-fix`/`thematic` overwrites the passed weights (an
unknown policy changes nothing); then a falsy weights value (`None` or an
empty dict) is replaced by the default. -/
def effectiveScaleWeights (scaleWeights : Option ScaleWeights) (policy : Option String) :
    ScaleWeights :=
  let sw := match policy with
    | some p =>
      if p ≠ "" then
        if p = "line-fix" then some lineFixWeights
        else if p = "scene-fix" then some sceneFixWeights
        else if p = "thematic" then some thematicWeights
        else scaleWeights
      else scaleWeights
    | none => scaleWeights
  match sw with
  | some l => if l = [] then defaultScaleWeights else l
  | none => defaultScaleWeights

/-- Python `int()` on a rational (truncation toward zero). -/
def pyInt (q : ℚ) : Int := if q < 0 then -(Int.floor (-q)) else Int.floor q

/-- `compute_graph_boost`: for each PERSON/LOC entity the NER collaborator
finds in the query, look up the centrality of its canonical node if linked
to the candidate segment (`fetchone` modelled as the head of the join in
nested-loop order), and add `min(centrality / 100, 0.5)` when the row
exists and its centrality is truthy (not `NULL`, not 0). -/
def computeGraphBoost (db : GraphDB) (ner : NerFun) (segment : SegRec)
    (query : List Char) : ℚ :=
  let queryEntities := ((ner query).filter (fun e =>
    e.label == "PERSON" || e.label == "LOC")).map (fun e => e.text)
  if queryEntities.isEmpty then 0
  else queryEntities.foldl (fun boost entity =>
    let canonical := canonicalize entity "character"
    let row := (db.segment_nodes.flatMap (fun s =>
      db.nodes.filterMap (fun n =>
        if s.node_id = n.node_id ∧ s.segment_id = segment.id ∧ n.canonical_name = canonical
        then some n.centrality else none))).head?
    match row with
    | some (some c) => if c ≠ 0 then boost + min (c / 100) (0.5 : ℚ) else boost
    | _ => boost) 0

/-- One entry of `fractal_retrieve`'s result list. -/
structure RetrievalResult where
  scale : String
  score : ℚ
  segment : SegRec
  graph_boost : ℚ
  context_boost : ℚ
deriving DecidableEq, Repr

/-- The ANN-search collaborator: `(index contents, query vector, k)` to the
pair of score and position lists (`D[0]`, `I[0]`). -/
abbrev SearchFun (E : Type) := List E → E → Int → List ℚ × List Int

/-- `fractal_retrieve`: resolve the scale weights, embed and normalize the
query once, and for each scale with nonzero weight whose index dict entry
exists and is non-empty, fetch `min(int(k * weight * 2), ntotal)`
candidates, drop positions outside the metadata store, score each candidate
as `weight * similarity + 0.2 * graph_boost + 0.1 * context_boost`
(`context_boost` is always 0), then sort everything by score descending
(Python's stable sort; the order among equal scores is not relied on here)
and keep the top `k`. -/
def fractalRetrieve {E : Type} (encode : List Char → E) (normalize : E → E)
    (search : SearchFun E) (ner : NerFun) (st : RetrieverState E)
    (query : List Char) (k : Nat) (scaleWeights : Option ScaleWeights)
    (policy : Option String) : List RetrievalResult :=
  let weights := effectiveScaleWeights scaleWeights policy
  let qEmb := normalize (encode query)
  let results := weights.foldl (fun acc p =>
    let scale := p.1
    let weight := p.2
    if weight = 0 ∨ (st.indices.lookup scale).isNone then acc
    else
      let index := (st.indices.lookup scale).getD []
      let meta := (st.metadata.lookup scale).getD []
      if index.length = 0 then acc
      else
        let searchK := min (pyInt ((k : ℚ) * weight * 2)) (index.length : Int)
        let dr := search index qEmb searchK
        (dr.1.zip dr.2).foldl (fun acc2 si =>
          if si.2 < 0 ∨ (meta.length : Int) ≤ si.2 then acc2
          else
            let segment := meta.getD si.2.toNat ⟨"", [], none⟩
            let gboost := computeGraphBoost st.graph ner segment query
            let contextBoost : ℚ := 0
            let finalScore := weight * si.1 + (0.2 : ℚ) * gboost + (0.1 : ℚ) * contextBoost
            acc2 ++ [⟨scale, finalScore, segment, gboost, contextBoost⟩]) acc) []
  (List.insertionSort (fun a b => b.score ≤ a.score) results).take k

/-! ### Observables used by the verification statements -/

/-- Total stored frequency of a node id across the nodes table: the row's
frequency under primary-key uniqueness, a sum in general. -/
def totalFreq : List NodeRow → String → Nat
  | [], _ => 0
  | r :: rs, d => (if r.node_id = d then r.frequency else 0) + totalFreq rs d

/-- The node-id column of the nodes table. -/
def nodeIds (nodes : List NodeRow) : List String :=
  nodes.map (fun r => r.node_id)

/-- The edge rows carrying a given edge id. -/
def filterEdges (es : List EdgeRow) (eid : String) : List EdgeRow :=
  es.filter (fun r => r.edge_id == eid)

/-- The identity-and-weight content of an edge row. -/
def edgeSummary (r : EdgeRow) : String × String × ℚ × String :=
  (r.from_node, r.to_node, r.weight, r.edge_type)

/-- The summaries of all edge rows whose edge id is the co-occurrence id of
the ordered pair `(a, b)`. -/
def cooccurSummaries (db : GraphDB) (a b : String) : List (String × String × ℚ × String) :=
  (filterEdges db.edges (cooccurEdgeId a b)).map edgeSummary

/-- A sequence of `update_graph` calls (segment and scale per call). -/
def runCalls (ner : NerFun) (calls : List (SegRec × String)) (db : GraphDB) : GraphDB :=
  calls.foldl (fun d c => updateGraph ner c.1 c.2 d) db

/-- The node ids extracted from one call's segment. -/
def extractedIds (ner : NerFun) (c : SegRec × String) : List String :=
  (extractEntities ner c.1.text).map (fun e => e.node_id)

/-- The number of calls in which both `a` and `b` are extracted. -/
def countCoextractions (ner : NerFun) (calls : List (SegRec × String)) (a b : String) : Nat :=
  calls.countP (fun c => decide (a ∈ extractedIds ner c ∧ b ∈ extractedIds ner c))

/-! ### Concrete inputs for the counterexample and witness statements -/

/-- C1's chapter: one `***` scene break (offset 23) inside plain text. -/
def chapterTextC1 : List Char :=
  "Ann met Bob here today.\n\n***\n\nCarl met Dora there again.".toList

/-- A micro segment covering the text before the break. -/
def microM1 : MicroSegment :=
  { id := "m1", chapter := "ch1", sent_index := 0, beat_index := 0,
    text := "Ann met Bob here today.".toList, start_char := 0, end_char := 23 }

/-- A micro segment covering the text after the break. -/
def microM2 : MicroSegment :=
  { id := "m2", chapter := "ch1", sent_index := 1, beat_index := 0,
    text := "Carl met Dora there again.".toList, start_char := 30, end_char := 56 }

/-- An NER collaborator returning no entities. -/
def nerNone : NerFun := fun _ => []

/-- An NER collaborator finding Alice and Bob, in the order each of the two
segment texts mentions them (as spaCy reports mentions in span order). -/
def nerAliceBob : NerFun := fun t =>
  if t = "Alice met Bob.".toList then
    [{ label := "PERSON", text := "Alice", start_char := 0 },
     { label := "PERSON", text := "Bob", start_char := 10 }]
  else if t = "Bob met Alice.".toList then
    [{ label := "PERSON", text := "Bob", start_char := 0 },
     { label := "PERSON", text := "Alice", start_char := 8 }]
  else []

def segAliceBob : SegRec := { id := "meso_ch1_0", text := "Alice met Bob.".toList }

def segBobAlice : SegRec := { id := "meso_ch2_0", text := "Bob met Alice.".toList }

/-- The graph after ingesting the two segments: Alice and Bob co-extracted
twice, once per order.  (Both names canonicalize through the alias table:
`Bob` to `Robert`.) -/
def dbOrderFlip : GraphDB :=
  updateGraph nerAliceBob segBobAlice "meso" (updateGraph nerAliceBob segAliceBob "meso" emptyDB)

/-- Two calls whose segments both mention Alice before Bob, so both
extractions list the pair in the same order. -/
def callsConsistent : List (SegRec × String) :=
  [({ id := "meso_ch1_0", text := "Alice met Bob.".toList }, "meso"),
   ({ id := "meso_ch3_0", text := "Alice met Bob.".toList }, "meso")]

/-- An NER collaborator that finds `Tom` once in the first segment and
twice in the second (two mentions, as spaCy reports every mention). -/
def nerTom : NerFun := fun t =>
  if t = "Tom met Ann.".toList then
    [{ label := "PERSON", text := "Tom", start_char := 0 }]
  else if t = "Tom saw Tom.".toList then
    [{ label := "PERSON", text := "Tom", start_char := 0 },
     { label := "PERSON", text := "Tom", start_char := 8 }]
  else []

def dbTomOnce : GraphDB :=
  updateGraph nerTom { id := "s1", text := "Tom met Ann.".toList } "meso" emptyDB

def dbTomTwice : GraphDB :=
  updateGraph nerTom { id := "s2", text := "Tom saw Tom.".toList } "meso" dbTomOnce

/-- A database in which canonical character `X` is linked, through two
distinct node rows, to segments `segA` (status dead) and `segB`
(status alive). -/
def dbResurrection : GraphDB :=
  ⟨[{ node_id := "n1", node_type := "character", canonical_name := "X",
      attributes := some [("status", "dead")], frequency := 1, centrality := none },
    { node_id := "n2", node_type := "character", canonical_name := "X",
      attributes := some [("status", "alive")], frequency := 1, centrality := none }],
   [],
   [{ segment_id := "segB", node_id := "n2", segment_scale := "meso", confidence := 1 },
    { segment_id := "segA", node_id := "n1", segment_scale := "meso", confidence := 1 }]⟩

/-- The scan row for `segA` in `dbResurrection`. -/
def rowDead : ContRow := { segment_id := "segA", segment_scale := "meso",
                           attributes := some [("status", "dead")] }

/-- The scan row for `segB` in `dbResurrection`. -/
def rowAlive : ContRow := { segment_id := "segB", segment_scale := "meso",
                            attributes := some [("status", "alive")] }

/-- A filesystem with a persisted micro index holding one vector. -/
def fsMicroOne : IndexFS Unit := fun p => if p = MICRO_INDEX_PATH then some [()] else none

/-- A filesystem with no persisted index files. -/
def fsEmpty : IndexFS Unit := fun _ => none

/-- The retriever state after one `index_segments` call on a fresh instance
with `fsMicroOne` on disk. -/
def stLoadedPlusOne : RetrieverState Unit :=
  indexSegments fsMicroOne (fun _ => ()) id nerNone (freshRetriever emptyDB)
    [{ id := "m1", text := "hello".toList }] "micro"

/-- The retriever state after the same call when no index files exist. -/
def stFreshPlusOne : RetrieverState Unit :=
  indexSegments fsEmpty (fun _ => ()) id nerNone (freshRetriever emptyDB)
    [{ id := "m1", text := "hello".toList }] "micro"

/-- C6's text: exactly five action-verb hits, no quote marks, short. -/
def textFiveActions : List Char :=
  "He ran and jumped and fought and grabbed and threw a rock.".toList

/-- A short line of dialogue: 2 quote marks over 15 characters. -/
def textDialogue : List Char := "\"Hi!\" she said.".toList

/-- Six action-verb hits, no quote marks. -/
def textSixActions : List Char :=
  "He ran and jumped and fought and grabbed and threw and walked.".toList

/-- 600 characters, no quotes, no action verbs. -/
def textLongPlain : List Char := List.replicate 600 'x'

/-! ### General lemmas -/

theorem lookup_value_mem {β : Type} (l : List (String × β)) (k : String) (v : β)
    (h : l.lookup k = some v) : v ∈ l.map (fun p => p.2) := by
  induction l with
  | nil => simp [List.lookup] at h
  | cons p rest ih =>
    rw [List.lookup] at h
    cases hbeq : k == p.1 with
    | true =>
      rw [hbeq] at h
      simp only [Option.some.injEq] at h
      rw [List.map_cons, ← h]
      exact List.mem_cons_self _ _
    | false =>
      rw [hbeq] at h
      rw [List.map_cons]
      exact List.mem_cons_of_mem _ (ih h)

theorem foldl_skip {α β : Type _} (l : List β) (a : α) : l.foldl (fun x _ => x) a = a := by
  induction l generalizing a with
  | nil => rfl
  | cons b bs ih => simp [List.foldl, ih]

theorem lookup_cons_beq {α : Type} (pk k' : String) (pv : α) (rest : List (String × α)) :
    ((pk, pv) :: rest).lookup k' = if k' = pk then some pv else rest.lookup k' := by
  rw [List.lookup]
  by_cases h : k' = pk
  · rw [if_pos h, show (k' == pk) = true from beq_iff_eq.mpr h]
  · rw [if_neg h, show (k' == pk) = false from beq_eq_false_iff_ne.mpr h]

theorem lookup_dictSet {α : Type} (l : List (String × α)) (k : String) (v : α) (k' : String) :
    (dictSet l k v).lookup k' = if k' = k then some v else l.lookup k' := by
  induction l with
  | nil =>
    by_cases h : k' = k <;> simp [dictSet, lookup_cons_beq, h, List.lookup_nil]
  | cons p rest ih =>
    rcases p with ⟨pk, pv⟩
    unfold dictSet
    by_cases h : pk = k
    · rw [if_pos h]
      subst h
      by_cases h' : k' = pk <;> simp [lookup_cons_beq, h']
    · rw [if_neg h]
      by_cases h' : k' = pk
      · subst h'
        simp [lookup_cons_beq, h]
      · rw [lookup_cons_beq, if_neg h', ih, lookup_cons_beq]
        by_cases h2 : k' = k <;> simp [h2, h']

/-! ### Lemmas on the node upsert of `update_graph` -/

theorem nodeIds_cons (r : NodeRow) (rs : List NodeRow) :
    nodeIds (r :: rs) = r.node_id :: nodeIds rs := rfl

theorem totalFreq_upsertNode (ns : List NodeRow) (e : GraphNode) (d : String) :
    totalFreq (upsertNode ns e) d =
      totalFreq ns d + (if e.node_id = d then 1 else 0) := by
  induction ns with
  | nil => simp [upsertNode, totalFreq]
  | cons r rs ih =>
    unfold upsertNode
    by_cases h : r.node_id = e.node_id
    · rw [if_pos h]
      simp only [totalFreq]
      by_cases h2 : e.node_id = d
      · rw [if_pos (h.trans h2), if_pos (h.trans h2), if_pos h2]
        omega
      · rw [if_neg (fun hc => h2 (by rw [← h]; exact hc)),
            if_neg (fun hc => h2 (by rw [← h]; exact hc)), if_neg h2]
        omega
    · rw [if_neg h]
      simp only [totalFreq]
      rw [ih]
      omega

theorem nodeIds_upsertNode (ns : List NodeRow) (e : GraphNode) :
    nodeIds (upsertNode ns e) =
      if e.node_id ∈ nodeIds ns then nodeIds ns else nodeIds ns ++ [e.node_id] := by
  induction ns with
  | nil => simp [upsertNode, nodeIds]
  | cons r rs ih =>
    unfold upsertNode
    by_cases h : r.node_id = e.node_id
    · have hc : e.node_id ∈ nodeIds (r :: rs) := by
        rw [nodeIds_cons]; exact List.mem_cons.mpr (Or.inl h.symm)
      rw [if_pos h, if_pos hc]
      rfl
    · rw [if_neg h]
      by_cases hmem : e.node_id ∈ nodeIds rs
      · have hc : e.node_id ∈ nodeIds (r :: rs) := by
          rw [nodeIds_cons]; exact List.mem_cons.mpr (Or.inr hmem)
        rw [nodeIds_cons, ih, if_pos hmem, if_pos hc, nodeIds_cons]
      · have hc : e.node_id ∉ nodeIds (r :: rs) := by
          rw [nodeIds_cons]
          intro hx
          rcases List.mem_cons.mp hx with h1 | h1
          exacts [h h1.symm, hmem h1]
        rw [nodeIds_cons, ih, if_neg hmem, if_neg hc, nodeIds_cons, List.cons_append]

theorem nodup_upsertNode (ns : List NodeRow) (e : GraphNode)
    (h : (nodeIds ns).Nodup) : (nodeIds (upsertNode ns e)).Nodup := by
  rw [nodeIds_upsertNode]
  split_ifs with hm
  · exact h
  · simp [List.nodup_append, h, hm]

theorem foldNodePass_nodes (es : List GraphNode) (db : GraphDB) (sid scale : String) :
    (es.foldl (fun d e =>
      { d with nodes := upsertNode d.nodes e
               segment_nodes := insertSegLink d.segment_nodes sid e.node_id scale }) db).nodes =
      es.foldl (fun ns e => upsertNode ns e) db.nodes := by
  induction es generalizing db with
  | nil => rfl
  | cons e rest ih =>
    rw [List.foldl_cons, List.foldl_cons]
    exact ih _

theorem foldNodePass_edges (es : List GraphNode) (db : GraphDB) (sid scale : String) :
    (es.foldl (fun d e =>
      { d with nodes := upsertNode d.nodes e
               segment_nodes := insertSegLink d.segment_nodes sid e.node_id scale }) db).edges =
      db.edges := by
  induction es generalizing db with
  | nil => rfl
  | cons e rest ih =>
    rw [List.foldl_cons]
    exact ih _

theorem totalFreq_map_centrality (l : List NodeRow) (f : NodeRow → Option ℚ) (d : String) :
    totalFreq (l.map (fun n => { n with centrality := f n })) d = totalFreq l d := by
  induction l with
  | nil => rfl
  | cons r rs ih => simp [totalFreq, ih]

theorem nodeIds_map_centrality (l : List NodeRow) (f : NodeRow → Option ℚ) :
    nodeIds (l.map (fun n => { n with centrality := f n })) = nodeIds l := by
  induction l with
  | nil => rfl
  | cons r rs ih => simp only [List.map_cons, nodeIds_cons] at ih ⊢; rw [ih]

theorem totalFreq_fold_upsertNode (es : List GraphNode) (ns : List NodeRow) (d : String) :
    totalFreq (es.foldl (fun acc e => upsertNode acc e) ns) d =
      totalFreq ns d + (es.map (fun e => e.node_id)).count d := by
  induction es generalizing ns with
  | nil => simp
  | cons e rest ih =>
    rw [List.foldl_cons, ih, totalFreq_upsertNode, List.map_cons, List.count_cons]
    by_cases h : e.node_id = d <;> simp [h] <;> omega

theorem nodup_fold_upsertNode (es : List GraphNode) (ns : List NodeRow)
    (h : (nodeIds ns).Nodup) :
    (nodeIds (es.foldl (fun acc e => upsertNode acc e) ns)).Nodup := by
  induction es generalizing ns with
  | nil => exact h
  | cons e rest ih => exact ih _ (nodup_upsertNode _ _ h)

/-! ### Lemmas on the co-occurrence edge upsert of `update_graph` -/

theorem runCalls_cons (ner : NerFun) (c : SegRec × String) (rest : List (SegRec × String))
    (db : GraphDB) :
    runCalls ner (c :: rest) db = runCalls ner rest (updateGraph ner c.1 c.2 db) := rfl

theorem edges_updateGraph (ner : NerFun) (seg : SegRec) (scale : String) (db : GraphDB) :
    (updateGraph ner seg scale db).edges =
      addCooccurEdges ((extractEntities ner seg.text).map (fun e => e.node_id))
        [("segment", seg.id), ("scale", scale)] db.edges := by
  simp only [updateGraph, updateCentrality]
  rw [foldNodePass_edges]

theorem filterEdges_upsertEdge_ne (es : List EdgeRow) (eid eid' x y : String)
    (ev : List (String × String)) (h : eid' ≠ eid) :
    filterEdges (upsertEdge eid' x y ev es) eid = filterEdges es eid := by
  induction es with
  | nil => simp [upsertEdge, filterEdges, h]
  | cons r rs ih =>
    unfold upsertEdge
    by_cases hr : r.edge_id = eid'
    · rw [if_pos hr]
      unfold filterEdges at ih ⊢
      simp only [List.filter_cons]
      have hne2 : ¬((r.edge_id == eid) = true) := by simp [hr]; exact h
      rw [if_neg hne2, if_neg hne2]
    · rw [if_neg hr]
      unfold filterEdges at ih ⊢
      simp only [List.filter_cons]
      by_cases h2 : r.edge_id = eid <;> simp [h2, ih]

theorem filterEdges_upsertEdge_absent (es : List EdgeRow) (eid x y : String)
    (ev : List (String × String)) (h : filterEdges es eid = []) :
    filterEdges (upsertEdge eid x y ev es) eid =
      [⟨eid, x, y, "cooccurrence", 1, some ev⟩] := by
  induction es with
  | nil => simp [upsertEdge, filterEdges]
  | cons r rs ih =>
    unfold filterEdges at h
    rw [List.filter_cons] at h
    by_cases hr : r.edge_id = eid
    · simp [hr] at h
    · rw [if_neg (by simp [hr])] at h
      unfold upsertEdge
      rw [if_neg hr]
      unfold filterEdges at ih ⊢
      rw [List.filter_cons, if_neg (by simp [hr])]
      exact ih h

theorem filterEdges_upsertEdge_present (es : List EdgeRow) (eid x y : String)
    (ev : List (String × String)) (r0 : EdgeRow) (h : filterEdges es eid = [r0]) :
    filterEdges (upsertEdge eid x y ev es) eid =
      [{ r0 with weight := r0.weight + 1 }] := by
  induction es with
  | nil => simp [filterEdges] at h
  | cons r rs ih =>
    unfold filterEdges at h
    rw [List.filter_cons] at h
    by_cases hr : r.edge_id = eid
    · rw [if_pos (by simp [hr])] at h
      have hr0 : r = r0 ∧ List.filter (fun r => r.edge_id == eid) rs = [] := by
        constructor
        · exact (List.cons_eq_cons.mp h).1
        · exact (List.cons_eq_cons.mp h).2
      unfold upsertEdge
      rw [if_pos hr]
      unfold filterEdges
      rw [List.filter_cons, if_pos (by simp [hr]), hr0.1, hr0.2]
    · rw [if_neg (by simp [hr])] at h
      unfold upsertEdge
      rw [if_neg hr]
      unfold filterEdges at ih ⊢
      rw [List.filter_cons, if_neg (by simp [hr])]
      exact ih h

theorem pass_keep (a b : String) (ps : List (String × String)) (es : List EdgeRow)
    (ev : List (String × String))
    (h : ps.filter (fun p => cooccurEdgeId p.1 p.2 == cooccurEdgeId a b) = []) :
    filterEdges (ps.foldl (fun acc p => upsertEdge (cooccurEdgeId p.1 p.2) p.1 p.2 ev acc) es)
      (cooccurEdgeId a b) = filterEdges es (cooccurEdgeId a b) := by
  induction ps generalizing es with
  | nil => rfl
  | cons p rest ih =>
    rw [List.filter_cons] at h
    by_cases hp : cooccurEdgeId p.1 p.2 = cooccurEdgeId a b
    · simp [hp] at h
    · rw [if_neg (by simp [hp])] at h
      rw [List.foldl_cons, ih _ h, filterEdges_upsertEdge_ne _ _ _ _ _ _ hp]

theorem pass_hit_absent (a b : String) (ps : List (String × String)) (es : List EdgeRow)
    (ev : List (String × String))
    (h : ps.filter (fun p => cooccurEdgeId p.1 p.2 == cooccurEdgeId a b) = [(a, b)])
    (h0 : filterEdges es (cooccurEdgeId a b) = []) :
    filterEdges (ps.foldl (fun acc p => upsertEdge (cooccurEdgeId p.1 p.2) p.1 p.2 ev acc) es)
      (cooccurEdgeId a b) =
      [⟨cooccurEdgeId a b, a, b, "cooccurrence", 1, some ev⟩] := by
  induction ps generalizing es with
  | nil => exact absurd h (by simp)
  | cons p rest ih =>
    rw [List.filter_cons] at h
    by_cases hp : cooccurEdgeId p.1 p.2 = cooccurEdgeId a b
    · rw [if_pos (by simp [hp])] at h
      have hpair := (List.cons_eq_cons.mp h).1
      have hrest := (List.cons_eq_cons.mp h).2
      rw [List.foldl_cons, pass_keep a b rest _ ev hrest, hpair]
      exact filterEdges_upsertEdge_absent es _ a b ev h0
    · rw [if_neg (by simp [hp])] at h
      rw [List.foldl_cons]
      exact ih _ h ((filterEdges_upsertEdge_ne es _ _ p.1 p.2 ev hp).trans h0)

theorem pass_hit_present (a b : String) (ps : List (String × String)) (es : List EdgeRow)
    (ev : List (String × String)) (r0 : EdgeRow)
    (h : ps.filter (fun p => cooccurEdgeId p.1 p.2 == cooccurEdgeId a b) = [(a, b)])
    (h0 : filterEdges es (cooccurEdgeId a b) = [r0]) :
    filterEdges (ps.foldl (fun acc p => upsertEdge (cooccurEdgeId p.1 p.2) p.1 p.2 ev acc) es)
      (cooccurEdgeId a b) =
      [{ r0 with weight := r0.weight + 1 }] := by
  induction ps generalizing es with
  | nil => exact absurd h (by simp)
  | cons p rest ih =>
    rw [List.filter_cons] at h
    by_cases hp : cooccurEdgeId p.1 p.2 = cooccurEdgeId a b
    · rw [if_pos (by simp [hp])] at h
      have hpair := (List.cons_eq_cons.mp h).1
      have hrest := (List.cons_eq_cons.mp h).2
      rw [List.foldl_cons, pass_keep a b rest _ ev hrest, hpair]
      exact filterEdges_upsertEdge_present es _ a b ev r0 h0
    · rw [if_neg (by simp [hp])] at h
      rw [List.foldl_cons]
      exact ih _ h ((filterEdges_upsertEdge_ne es _ _ p.1 p.2 ev hp).trans h0)

/-! ### Lemmas on the multi-scale index -/

theorem metadata_ensureIndexLoaded {E : Type} (fs : IndexFS E) (scale : String)
    (st : RetrieverState E) : (ensureIndexLoaded fs scale st).metadata = st.metadata := by
  unfold ensureIndexLoaded; split_ifs <;> rfl

theorem scaleNtotal_ensureIndexLoaded {E : Type} (fs : IndexFS E) (scale : String)
    (st : RetrieverState E) (s : String) :
    scaleNtotal (ensureIndexLoaded fs scale st) s =
      if s = scale ∧ (st.indices.lookup scale).isNone then (loadOrCreateIndex fs scale).length
      else scaleNtotal st s := by
  unfold ensureIndexLoaded scaleNtotal
  by_cases hpre : (st.indices.lookup scale).isNone <;>
    by_cases hs : s = scale <;>
      simp [hpre, hs, lookup_dictSet]

theorem scaleNtotal_appendVectors {E : Type} (scale : String) (em : List E)
    (st : RetrieverState E) (s : String) :
    scaleNtotal (appendVectors scale em st) s =
      if s = scale then scaleNtotal st scale + em.length else scaleNtotal st s := by
  unfold appendVectors scaleNtotal
  by_cases hs : s = scale <;> simp [hs, lookup_dictSet]

theorem metadata_appendVectors {E : Type} (scale : String) (em : List E)
    (st : RetrieverState E) : (appendVectors scale em st).metadata = st.metadata := rfl

theorem indices_ensureMetaKey {E : Type} (scale : String) (st : RetrieverState E) :
    (ensureMetaKey scale st).indices = st.indices := by
  unfold ensureMetaKey; split_ifs <;> rfl

theorem scaleMetaLen_ensureMetaKey {E : Type} (scale : String) (st : RetrieverState E)
    (s : String) : scaleMetaLen (ensureMetaKey scale st) s = scaleMetaLen st s := by
  unfold ensureMetaKey scaleMetaLen
  by_cases hpre : (st.metadata.lookup scale).isNone <;>
    by_cases hs : s = scale <;>
      simp [hpre, hs, lookup_dictSet, Option.isNone_iff_eq_none]
  · subst hs
    rw [Option.isNone_iff_eq_none] at hpre
    rw [hpre]
    rfl

theorem indices_appendMeta {E : Type} (scale : String) (recs : List SegRec)
    (st : RetrieverState E) : (appendMeta scale recs st).indices = st.indices := rfl

theorem scaleMetaLen_appendMeta {E : Type} (scale : String) (recs : List SegRec)
    (st : RetrieverState E) (s : String) :
    scaleMetaLen (appendMeta scale recs st) s =
      if s = scale then scaleMetaLen st scale + recs.length else scaleMetaLen st s := by
  unfold appendMeta scaleMetaLen
  by_cases hs : s = scale <;> simp [hs, lookup_dictSet]

theorem indices_updateGraphForMeso {E : Type} (ner : NerFun) (scale : String)
    (recs : List SegRec) (st : RetrieverState E) :
    (updateGraphForMeso ner scale recs st).indices = st.indices := by
  unfold updateGraphForMeso; split_ifs <;> rfl

theorem metadata_updateGraphForMeso {E : Type} (ner : NerFun) (scale : String)
    (recs : List SegRec) (st : RetrieverState E) :
    (updateGraphForMeso ner scale recs st).metadata = st.metadata := by
  unfold updateGraphForMeso; split_ifs <;> rfl

theorem scaleNtotal_indexSegments {E : Type} (fs : IndexFS E) (encode : List Char → E)
    (normalize : E → E) (ner : NerFun) (st : RetrieverState E) (segs : List SegRec)
    (scale s : String) :
    scaleNtotal (indexSegments fs encode normalize ner st segs scale) s =
      if s = scale then
        (if (st.indices.lookup scale).isNone then (loadOrCreateIndex fs scale).length
         else scaleNtotal st scale) + segs.length
      else scaleNtotal st s := by
  unfold indexSegments
  unfold scaleNtotal
  rw [indices_updateGraphForMeso, indices_appendMeta, indices_ensureMetaKey]
  rw [show ∀ (x : RetrieverState E), ((x.indices.lookup s).getD []).length = scaleNtotal x s
    from fun _ => rfl]
  simp only [scaleNtotal_appendVectors, scaleNtotal_ensureIndexLoaded, List.length_map]
  by_cases hs : s = scale <;> by_cases hpre : (st.indices.lookup scale).isNone <;>
    simp [hs, hpre, scaleNtotal]

theorem scaleMetaLen_indexSegments {E : Type} (fs : IndexFS E) (encode : List Char → E)
    (normalize : E → E) (ner : NerFun) (st : RetrieverState E) (segs : List SegRec)
    (scale s : String) :
    scaleMetaLen (indexSegments fs encode normalize ner st segs scale) s =
      if s = scale then scaleMetaLen st scale + segs.length
      else scaleMetaLen st s := by
  unfold indexSegments
  unfold scaleMetaLen
  rw [metadata_updateGraphForMeso]
  rw [show ∀ (x : RetrieverState E), ((x.metadata.lookup s).getD []).length = scaleMetaLen x s
    from fun _ => rfl]
  simp only [scaleMetaLen_appendMeta, scaleMetaLen_ensureMetaKey, List.length_map,
    List.enum_length]
  have hmeta : ∀ (em : List E) (st' : RetrieverState E) (s' : String),
      scaleMetaLen (appendVectors scale em st') s' = scaleMetaLen st' s' := by
    intro em st' s'
    unfold scaleMetaLen
    rw [metadata_appendVectors]
  simp only [hmeta]
  have hload : ∀ (s' : String),
      scaleMetaLen (ensureIndexLoaded fs scale st) s' = scaleMetaLen st s' := by
    intro s'
    unfold scaleMetaLen
    rw [metadata_ensureIndexLoaded]
  simp only [hload]
  simp [scaleMetaLen]

/-! ### C1 -/

/-- C1: on a chapter where `detect_scene_breaks` finds exactly the two
offsets 0 and 23 (the `***` marker), `create_meso_segments` returns a
single meso segment covering only `[0, 23)` with micro-id list `["m1"]` —
not the two segments the claim requires: the micro segment after the break
(`m2`) lands in no meso segment, because the break-pair loop never emits
the final `[last break, len(text))` window. -/
theorem claim_C1_failing_eval :
    detectSceneBreaks nerNone chapterTextC1 = [0, 23] ∧
    (createMesoSegments {} nerNone chapterTextC1 "ch1" [microM1, microM2]).map
      (fun s => (s.id, s.start_char, s.end_char, s.micro_ids)) =
      [("meso_ch1_0", 0, 23, ["m1"])] := by
  exact ⟨by decide, by decide⟩

/-! ### C5 -/

/-- C5: for every `k` and every `scale_weights` argument (including none),
`fractal_retrieve` with `policy='line-fix'` resolves the effective scale
weights to micro 0.9, meso 0.1, macro 0.0, overriding any supplied weights;
with neither policy nor weights, the effective weights are micro 1.0,
meso 0.6, macro 0.3.  (`fractalRetrieve` computes its weights exactly by
`effectiveScaleWeights`, which does not depend on `k`.) -/
theorem claim_C5_policy_precedence :
    (∀ scaleWeights : Option ScaleWeights,
      effectiveScaleWeights scaleWeights (some "line-fix") =
        [("micro", 0.9), ("meso", 0.1), ("macro", 0.0)]) ∧
    effectiveScaleWeights none none = [("micro", 1.0), ("meso", 0.6), ("macro", 0.3)] := by
  constructor
  · intro sw
    simp [effectiveScaleWeights, lineFixWeights]
  · rfl

/-! ### C6 -/

/-- C6 counterexample: a text with exactly five action-verb hits, quote
density 0 (not exceeding 0.05) and length below 500 is classified
`transition`, not `action` — refuting the claim that at least 5 hits
suffice (the code requires strictly more than 5). -/
theorem claim_C6_counterexample :
    dialogueRatio textFiveActions ≤ 0.05 ∧
    actionWordCount textFiveActions = 5 ∧
    classifySceneType textFiveActions = "transition" ∧
    classifySceneType textFiveActions ≠ "action" := by
  have hq : quoteCharCount textFiveActions = 0 := by decide
  have hd : dialogueRatio textFiveActions = 0 := by
    unfold dialogueRatio; rw [hq]; norm_num
  have ha : actionWordCount textFiveActions = 5 := by decide
  have hc : classifySceneType textFiveActions = "transition" := by
    unfold classifySceneType
    rw [ha, hd, show textFiveActions.length = 58 from by decide]
    norm_num
  refine ⟨by rw [hd]; norm_num, ha, hc, by rw [hc]; decide⟩

/-- C6 (amended): `classify_scene_type` follows the strict priority order
dialogue (quote-mark density exceeding 0.05) before action (MORE than 5
action-verb hits, i.e. at least 6 — not at least 5 as claimed) before
transition (length under 500 characters) before description. -/
theorem claim_C6_priority (text : List Char) :
    (dialogueRatio text > 0.05 → classifySceneType text = "dialogue") ∧
    (dialogueRatio text ≤ 0.05 → 6 ≤ actionWordCount text →
      classifySceneType text = "action") ∧
    (dialogueRatio text ≤ 0.05 → actionWordCount text ≤ 5 → text.length < 500 →
      classifySceneType text = "transition") ∧
    (dialogueRatio text ≤ 0.05 → actionWordCount text ≤ 5 → 500 ≤ text.length →
      classifySceneType text = "description") := by
  unfold classifySceneType
  refine ⟨fun h => ?_, fun h h6 => ?_, fun h h5 hl => ?_, fun h h5 hl => ?_⟩
  · rw [if_pos h]
  · rw [if_neg (not_lt.mpr h), if_pos (by omega)]
  · rw [if_neg (not_lt.mpr h), if_neg (by omega), if_pos hl]
  · rw [if_neg (not_lt.mpr h), if_neg (by omega), if_neg (not_lt.mpr hl)]

/-- C6 witness: each of the four priority branches realised on a concrete
text. -/
theorem claim_C6_witness :
    classifySceneType textDialogue = "dialogue" ∧
    classifySceneType textSixActions = "action" ∧
    classifySceneType textFiveActions = "transition" ∧
    classifySceneType textLongPlain = "description" := by
  have hdlg : dialogueRatio textDialogue > 0.05 := by
    unfold dialogueRatio
    rw [show quoteCharCount textDialogue = 2 from by decide,
        show (max textDialogue.length 1 : Nat) = 15 from by decide]
    norm_num
  have h6 : dialogueRatio textSixActions = 0 := by
    unfold dialogueRatio
    rw [show quoteCharCount textSixActions = 0 from by decide]
    norm_num
  have h5d : dialogueRatio textFiveActions = 0 := by
    unfold dialogueRatio
    rw [show quoteCharCount textFiveActions = 0 from by decide]
    norm_num
  have hlp : dialogueRatio textLongPlain = 0 := by
    unfold dialogueRatio
    rw [show quoteCharCount textLongPlain = 0 from by decide]
    norm_num
  refine ⟨(claim_C6_priority textDialogue).1 hdlg,
    (claim_C6_priority textSixActions).2.1 (by rw [h6]; norm_num)
      (by rw [show actionWordCount textSixActions = 6 from by decide]),
    (claim_C6_priority textFiveActions).2.2.1 (by rw [h5d]; norm_num)
      (by rw [show actionWordCount textFiveActions = 5 from by decide])
      (by decide),
    (claim_C6_priority textLongPlain).2.2.2 (by rw [hlp]; norm_num)
      (by rw [show actionWordCount textLongPlain = 0 from by decide]; omega)
      (by decide)⟩

/-! ### C8 -/

/-- C8: for every non-empty list of names none of which is a canonical name
linked to any segment, `query_graph` returns the empty list (and, being a
total function of the stored tables, raises no error). -/
theorem claim_C8_unknown_names (db : GraphDB) (names : List String) (_hne : names ≠ [])
    (h : ∀ name ∈ names, ∀ s ∈ db.segment_nodes, ∀ n ∈ db.nodes,
      s.node_id = n.node_id → n.canonical_name ≠ name) :
    queryGraph db names = [] := by
  have hrows : queryGraphRows db names = [] := by
    unfold queryGraphRows
    rw [List.dedup_eq_nil, List.flatMap_eq_nil_iff]
    intro s hs
    rw [List.filterMap_eq_nil_iff]
    intro n hn
    rw [ite_eq_right_iff]
    rintro ⟨heq, hmem⟩
    exact absurd heq (fun heq' => h _ hmem s hs n hn heq' rfl)
  simp [queryGraph, hrows]

/-- C8 witness: querying `dbResurrection` for the unknown name `Zed`. -/
theorem claim_C8_witness : queryGraph dbResurrection ["Zed"] = [] :=
  claim_C8_unknown_names dbResurrection ["Zed"] (by decide) (by decide)

/-! ### C9 -/

/-- C9: on a freshly constructed retriever (empty `indices` dict), every
scale is skipped and `fractal_retrieve` returns the empty list for every
query, `k`, weights and policy, regardless of what index files exist on
disk — persisted indexes are never consulted during retrieval. -/
theorem claim_C9_fresh_instance_empty {E : Type} (encode : List Char → E)
    (normalize : E → E) (search : SearchFun E) (ner : NerFun) (g : GraphDB)
    (query : List Char) (k : Nat) (sw : Option ScaleWeights) (policy : Option String) :
    fractalRetrieve encode normalize search ner (freshRetriever g) query k sw policy = [] := by
  simp only [fractalRetrieve, freshRetriever, List.lookup_nil, Option.isNone_none,
    eq_self_iff_true, or_true, if_true]
  rw [foldl_skip]
  simp [List.insertionSort]

/-! ### C10 -/

/-- C10: `canonicalize` is idempotent for type `character` under the
built-in alias table, and is the identity on names for every other node
type. -/
theorem claim_C10_canonicalize_idempotent :
    (∀ name, canonicalize (canonicalize name "character") "character" =
      canonicalize name "character") ∧
    (∀ name node_type, node_type ≠ "character" → canonicalize name node_type = name) := by
  constructor
  · intro name
    have hstep : canonicalize name "character" =
        (characterAliases.lookup (asciiLower name)).getD name := by simp [canonicalize]
    cases h : characterAliases.lookup (asciiLower name) with
    | none => rw [hstep, h]; simp [canonicalize, h]
    | some v =>
      rw [hstep, h]
      have hv := lookup_value_mem _ _ _ h
      simp [characterAliases] at hv
      rcases hv with h1 | h1 | h1 <;> subst h1 <;> simp only [Option.getD_some] <;> decide
  · intro name node_type ht
    simp [canonicalize, ht]

/-- C10 witness: idempotence at the aliased name `tom`, identity at node
type `motif`. -/
theorem claim_C10_witness :
    canonicalize (canonicalize "tom" "character") "character" =
      canonicalize "tom" "character" ∧
    canonicalize "frost" "motif" = "frost" :=
  ⟨claim_C10_canonicalize_idempotent.1 "tom",
   claim_C10_canonicalize_idempotent.2 "frost" "motif" (by decide)⟩

/-! ### C3 -/

/-- C3 counterexample: on a fresh retriever with a persisted one-vector
micro index on disk, a single `index_segments` call of one segment loads
the persisted index (ntotal 2 after the append) but the metadata store —
which is saved to disk yet never loaded — holds only 1 record, so the
claimed equality fails right after `load_or_create_index` loads a
persisted index. -/
theorem claim_C3_counterexample :
    scaleNtotal stLoadedPlusOne "micro" = 2 ∧
    scaleMetaLen stLoadedPlusOne "micro" = 1 ∧
    ¬ metaIndexAligned stLoadedPlusOne := by
  refine ⟨by decide, by decide, fun hal => absurd (hal "micro") (by decide)⟩

/-- C3 (amended): provided `load_or_create_index` always produces an empty
index (no persisted index file exists), every `index_segments` call
preserves the equality of metadata length and index vector count at every
scale, appending exactly `len(segments)` vectors and equally many metadata
records to the touched scale. -/
theorem claim_C3_amended {E : Type} (fs : IndexFS E) (encode : List Char → E)
    (normalize : E → E) (ner : NerFun) (st : RetrieverState E) (segs : List SegRec)
    (scale : String)
    (hfs : ∀ s, loadOrCreateIndex fs s = ([] : List E))
    (hinv : metaIndexAligned st) :
    metaIndexAligned (indexSegments fs encode normalize ner st segs scale) ∧
    scaleNtotal (indexSegments fs encode normalize ner st segs scale) scale =
      scaleNtotal st scale + segs.length ∧
    scaleMetaLen (indexSegments fs encode normalize ner st segs scale) scale =
      scaleMetaLen st scale + segs.length := by
  have hnt : ∀ s, scaleNtotal (indexSegments fs encode normalize ner st segs scale) s =
      if s = scale then scaleNtotal st scale + segs.length else scaleNtotal st s := by
    intro s
    rw [scaleNtotal_indexSegments]
    by_cases hpre : (st.indices.lookup scale).isNone
    · have h0 : scaleNtotal st scale = 0 := by
        unfold scaleNtotal
        rw [Option.isNone_iff_eq_none.mp hpre]
        rfl
      rw [if_pos hpre, hfs, h0]
      simp
    · rw [if_neg hpre]
  refine ⟨fun s => ?_, ?_, ?_⟩
  · rw [hnt s, scaleMetaLen_indexSegments]
    by_cases hs : s = scale <;> simp [hs, hinv s, hinv scale]
  · rw [hnt scale]
    simp
  · rw [scaleMetaLen_indexSegments]
    simp

/-- C3 witness: one `index_segments` call of one segment on a fresh
retriever with no index files on disk. -/
theorem claim_C3_witness :
    metaIndexAligned stFreshPlusOne ∧
    scaleNtotal stFreshPlusOne "micro" =
      scaleNtotal (freshRetriever (E := Unit) emptyDB) "micro" + 1 ∧
    scaleMetaLen stFreshPlusOne "micro" =
      scaleMetaLen (freshRetriever (E := Unit) emptyDB) "micro" + 1 := by
  have h := claim_C3_amended fsEmpty (fun _ => ()) id nerNone
    (freshRetriever emptyDB) [{ id := "m1", text := "hello".toList }] "micro"
    (fun s => by unfold loadOrCreateIndex; cases indexPaths.lookup s <;> simp [fsEmpty])
    (fun _ => rfl)
  exact h

/-! ### C4 -/

/-- C4: when the continuity scan for a character consists of exactly two
rows — segment A (scanned first, in segment-id lexical order) whose blob
has status `dead` and segment B whose blob has status `alive` —
`find_continuity_violations` returns exactly one violation, of type
`resurrection`, referencing segment B. -/
theorem claim_C4_resurrection (db : GraphDB) (character : String) (ra rb : ContRow)
    (hrows : continuityRows db character = [ra, rb])
    (hdead : (ra.attributes.getD []).lookup "status" = some "dead")
    (halive : (rb.attributes.getD []).lookup "status" = some "alive") :
    findContinuityViolations db character =
      [{ vtype := "resurrection", character := character, segment := rb.segment_id,
         details := "Character appears alive after being dead" }] := by
  have hne : ra.attributes.getD [] ≠ [] := by
    intro h0
    rw [h0] at hdead
    simp [List.lookup] at hdead
  unfold findContinuityViolations
  rw [hrows]
  simp only [violScan]
  rw [if_pos ⟨hne, hdead, halive⟩]
  simp

/-- C4 witness: in `dbResurrection` the scan rows are exactly
`[rowDead, rowAlive]` (sorted `segA` before `segB`), yielding the single
resurrection violation on `segB`. -/
theorem claim_C4_witness :
    findContinuityViolations dbResurrection "X" =
      [{ vtype := "resurrection", character := "X", segment := "segB",
         details := "Character appears alive after being dead" }] :=
  claim_C4_resurrection dbResurrection "X" rowDead rowAlive (by decide) (by decide) (by decide)

/-! ### C7 -/

/-- C7 counterexample: the NER collaborator reports the character `Tom`
twice in one segment (two mentions), so a single `update_graph` call
increments the node's stored frequency by 2, not by exactly 1; the node
row itself stays unique. -/
theorem claim_C7_counterexample :
    totalFreq dbTomOnce.nodes "character_thomas" = 1 ∧
    totalFreq dbTomTwice.nodes "character_thomas" = 3 ∧
    (nodeIds dbTomTwice.nodes).count "character_thomas" = 1 :=
  ⟨by decide, by decide, by decide⟩

/-- C7 (amended): node ids are pure functions of type plus canonicalized
name, so `update_graph` never creates a second row with the same node id
(id-uniqueness of the table is preserved), and each call increments a
node's stored frequency by exactly the number of occurrences of that node
id in the call's extracted entity list — which is exactly 1 when the
entity is extracted once. -/
theorem claim_C7_upsert (ner : NerFun) (seg : SegRec) (scale : String) (db : GraphDB)
    (d : String) :
    ((nodeIds db.nodes).Nodup → (nodeIds (updateGraph ner seg scale db).nodes).Nodup) ∧
    totalFreq (updateGraph ner seg scale db).nodes d =
      totalFreq db.nodes d +
        ((extractEntities ner seg.text).map (fun e => e.node_id)).count d := by
  unfold updateGraph updateCentrality
  constructor
  · intro h
    rw [nodeIds_map_centrality, foldNodePass_nodes]
    exact nodup_fold_upsertNode _ _ h
  · rw [totalFreq_map_centrality, foldNodePass_nodes, totalFreq_fold_upsertNode]

/-- C7 witness: one call extracting `Tom` once on the empty database. -/
theorem claim_C7_witness :
    (nodeIds dbTomOnce.nodes).Nodup ∧
    totalFreq dbTomOnce.nodes "character_thomas" =
      totalFreq emptyDB.nodes "character_thomas" +
        ((extractEntities nerTom "Tom met Ann.".toList).map
          (fun e => e.node_id)).count "character_thomas" := by
  have h := claim_C7_upsert nerTom { id := "s1", text := "Tom met Ann.".toList } "meso"
    emptyDB "character_thomas"
  exact ⟨h.1 (by decide), h.2⟩

theorem cooccurSummaries_def (db : GraphDB) (a b : String) :
    cooccurSummaries db a b = (filterEdges db.edges (cooccurEdgeId a b)).map edgeSummary := rfl

theorem cooccur_run (ner : NerFun) (a b : String) (calls : List (SegRec × String)) :
    (∀ c ∈ calls,
      (pairsOf (extractedIds ner c)).filter
          (fun p => cooccurEdgeId p.1 p.2 == cooccurEdgeId a b) =
        (if a ∈ extractedIds ner c ∧ b ∈ extractedIds ner c then [(a, b)] else [])) →
    ∀ (db : GraphDB) (m : Nat),
      cooccurSummaries db a b =
        (if m = 0 then [] else [(a, b, (m : ℚ), "cooccurrence")]) →
      cooccurSummaries (runCalls ner calls db) a b =
        (if m + countCoextractions ner calls a b = 0 then []
         else [(a, b, ((m + countCoextractions ner calls a b : Nat) : ℚ), "cooccurrence")]) := by
  induction calls with
  | nil =>
    intro _ db m hInv
    simpa [runCalls, countCoextractions] using hInv
  | cons c rest ih =>
    intro hcalls db m hInv
    have hc := hcalls c (List.mem_cons_self _ _)
    have hrest := fun c' hc' => hcalls c' (List.mem_cons_of_mem _ hc')
    rw [runCalls_cons]
    by_cases hin : a ∈ extractedIds ner c ∧ b ∈ extractedIds ner c
    · rw [if_pos hin] at hc
      unfold extractedIds at hc
      have harith : m + countCoextractions ner (c :: rest) a b =
          (m + 1) + countCoextractions ner rest a b := by
        unfold countCoextractions
        rw [List.countP_cons]
        simp [hin]
        omega
      rw [harith]
      apply ih hrest _ (m + 1)
      by_cases hm : m = 0
      · subst hm
        rw [if_pos rfl] at hInv
        have h0 : filterEdges db.edges (cooccurEdgeId a b) = [] := by
          rw [cooccurSummaries_def] at hInv
          exact List.map_eq_nil_iff.mp hInv
        rw [cooccurSummaries_def, edges_updateGraph]
        unfold addCooccurEdges
        rw [pass_hit_absent a b _ _ _ hc h0]
        simp [edgeSummary]
      · rw [if_neg hm] at hInv
        obtain ⟨r0, hfe, hsum⟩ : ∃ r0, filterEdges db.edges (cooccurEdgeId a b) = [r0] ∧
            edgeSummary r0 = (a, b, (m : ℚ), "cooccurrence") := by
          rcases hx : filterEdges db.edges (cooccurEdgeId a b) with _ | ⟨r0, rs'⟩
          · rw [cooccurSummaries_def, hx] at hInv
            simp at hInv
          · rw [cooccurSummaries_def, hx] at hInv
            cases rs' with
            | nil => exact ⟨r0, rfl, by simpa using hInv⟩
            | cons r1 rs'' => simp at hInv
        rw [cooccurSummaries_def, edges_updateGraph]
        unfold addCooccurEdges
        rw [pass_hit_present a b _ _ _ r0 hc hfe]
        obtain ⟨hf, ht, hw, hty⟩ : r0.from_node = a ∧ r0.to_node = b ∧ r0.weight = (m : ℚ) ∧
            r0.edge_type = "cooccurrence" := by
          simpa [edgeSummary, Prod.ext_iff] using hsum
        simp [edgeSummary, hf, ht, hw, hty]
    · rw [if_neg hin] at hc
      unfold extractedIds at hc
      have harith : m + countCoextractions ner (c :: rest) a b =
          m + countCoextractions ner rest a b := by
        unfold countCoextractions
        rw [List.countP_cons]
        simp [hin]
      rw [harith]
      apply ih hrest _ m
      rw [cooccurSummaries_def, edges_updateGraph]
      unfold addCooccurEdges
      rw [pass_keep a b _ _ _ hc]
      rw [cooccurSummaries_def] at hInv
      exact hInv

theorem cooccur_absent_run (ner : NerFun) (x y : String) (calls : List (SegRec × String)) :
    (∀ c ∈ calls, (pairsOf (extractedIds ner c)).filter
        (fun p => cooccurEdgeId p.1 p.2 == cooccurEdgeId x y) = []) →
    ∀ db : GraphDB, filterEdges db.edges (cooccurEdgeId x y) = [] →
      filterEdges (runCalls ner calls db).edges (cooccurEdgeId x y) = [] := by
  induction calls with
  | nil => intro _ db h0; exact h0
  | cons c rest ih =>
    intro hcalls db h0
    rw [runCalls_cons]
    apply ih (fun c' hc' => hcalls c' (List.mem_cons_of_mem _ hc'))
    have hc := hcalls c (List.mem_cons_self _ _)
    unfold extractedIds at hc
    rw [edges_updateGraph]
    unfold addCooccurEdges
    rw [pass_keep x y _ _ _ hc]
    exact h0

/-! ### C2 -/

/-- C2 counterexample: the same unordered pair {Alice, Robert} is
co-extracted in two segments, once in each order, and the graph ends up
with TWO co-occurrence edge rows for the pair (edge ids
`character_alice_character_robert_cooccur` and
`character_robert_character_alice_cooccur`), each of weight 1 — the edge
id depends on the extraction order, refuting the claimed at-most-one edge
with order-independent id. -/
theorem claim_C2_counterexample :
    dbOrderFlip.edges.countP (fun e => e.edge_type == "cooccurrence" &&
      ((e.from_node == "character_alice" && e.to_node == "character_robert") ||
       (e.from_node == "character_robert" && e.to_node == "character_alice"))) = 2 ∧
    (dbOrderFlip.edges.map (fun e => e.edge_id)).contains
      "character_alice_character_robert_cooccur" = true ∧
    (dbOrderFlip.edges.map (fun e => e.edge_id)).contains
      "character_robert_character_alice_cooccur" = true :=
  ⟨by decide, by decide, by decide⟩

/-- C2 (amended): the co-occurrence edge id is a function of the ORDERED
pair of node ids in extraction order.  For any sequence of `update_graph`
calls in which, whenever both A and B are extracted, the extraction yields
exactly the one id-colliding pair (A, B) — A before B, no duplicates, no
string-concatenation id collisions — and no pair ever collides with the
reversed id, the graph holds exactly one edge row for the pair: from A to
B, of type cooccurrence, with weight equal to the number of calls (meso
segments) in which both were extracted together; and no reversed-id row
exists. -/
theorem claim_C2_cooccur_weight (ner : NerFun) (calls : List (SegRec × String))
    (a b : String)
    (hord : ∀ c ∈ calls, (pairsOf (extractedIds ner c)).filter
        (fun p => cooccurEdgeId p.1 p.2 == cooccurEdgeId a b) =
      (if a ∈ extractedIds ner c ∧ b ∈ extractedIds ner c then [(a, b)] else []))
    (hrev : ∀ c ∈ calls, (pairsOf (extractedIds ner c)).filter
        (fun p => cooccurEdgeId p.1 p.2 == cooccurEdgeId b a) = []) :
    cooccurSummaries (runCalls ner calls emptyDB) a b =
      (if countCoextractions ner calls a b = 0 then []
       else [(a, b, ((countCoextractions ner calls a b : Nat) : ℚ), "cooccurrence")]) ∧
    cooccurSummaries (runCalls ner calls emptyDB) b a = [] := by
  constructor
  · have h := cooccur_run ner a b calls hord emptyDB 0 (by rfl)
    simpa using h
  · rw [cooccurSummaries_def, cooccur_absent_run ner b a calls hrev emptyDB (by rfl)]
    rfl

/-- C2 witness: two calls both extracting Alice before Bob ("Bob"
canonicalizes to "Robert"); the single edge carries weight 2. -/
theorem claim_C2_witness :
    cooccurSummaries (runCalls nerAliceBob callsConsistent emptyDB)
        "character_alice" "character_robert" =
      (if countCoextractions nerAliceBob callsConsistent
            "character_alice" "character_robert" = 0 then []
       else [("character_alice", "character_robert",
         ((countCoextractions nerAliceBob callsConsistent
            "character_alice" "character_robert" : Nat) : ℚ), "cooccurrence")]) ∧
    cooccurSummaries (runCalls nerAliceBob callsConsistent emptyDB)
        "character_robert" "character_alice" = [] :=
  claim_C2_cooccur_weight nerAliceBob callsConsistent
    "character_alice" "character_robert" (by decide) (by decide)

end FractalMemory
